import Mathlib

/-!
Verification development for the Hedera price-feed proof-of-concept repository.

The repository consists of:
- a Solidity contract PriceFeed (owner-guarded asset-to-price mapping),
- a deploy script that pushes the contract and rewrites subgraph.yaml / .env,
- an update CLI (update.ts) that parses --price / --asset and submits a call,
- a query script that reads the subgraph and renders a report,
- subgraph mapping handlers that persist event records.

JavaScript strings are modelled as lists of Unicode scalar values (List Char);
byte buffers are modelled as lists of naturals below 256.  External network
calls are modelled as oracle parameters.  Each definition is translated from
the corresponding source function; doc comments name the source symbol.
-/

namespace HederaPoc

/-- JS String.startsWith modelled on character lists (pattern, subject). -/
def startsWith : List Char → List Char → Bool
  | [], _ => true
  | _ :: _, [] => false
  | p :: ps, c :: cs => p = c && startsWith ps cs

/-- JS String.includes (substring anywhere) modelled on character lists. -/
def containsSub (pat : List Char) : List Char → Bool
  | [] => startsWith pat []
  | c :: cs => startsWith pat (c :: cs) || containsSub pat cs

/-- Characters of a line strictly before the first occurrence of the pattern;
mirrors the untouched part kept by a JS String.replace on a key-anchored
regular expression. -/
def beforeMatch (k : List Char) : List Char → List Char
  | [] => []
  | c :: cs => if startsWith k (c :: cs) then [] else c :: beforeMatch k cs

/-- JS string length (UTF-16 code units): astral-plane characters count 2. -/
def jsLen : List Char → Nat
  | [] => 0
  | c :: cs => (if c.toNat < 65536 then 1 else 2) + jsLen cs

/-- UTF-8 encoding of a single code point, as produced by TextEncoder.encode
in stringToBytes32 (src/scripts/update.ts). -/
def utf8EncodeNat (n : Nat) : List Nat :=
  if n < 128 then [n]
  else if n < 2048 then [192 + n / 64, 128 + n % 64]
  else if n < 65536 then [224 + n / 4096, 128 + n / 64 % 64, 128 + n % 64]
  else [240 + n / 262144, 128 + n / 4096 % 64, 128 + n / 64 % 64, 128 + n % 64]

/-- UTF-8 encoding of a string (TextEncoder.encode). -/
def utf8Encode (s : List Char) : List Nat :=
  (s.map (fun c => utf8EncodeNat c.toNat)).flatten

/-- State-machine UTF-8 decoder: remaining bytes, count of continuation bytes
still expected minus the final one, accumulated code-point bits.  Mirrors the
decoding performed by Buffer.toString() on valid UTF-8 input; malformed input
(unreachable from the encoder) yields the replacement character. -/
def utf8DecodeGo : List Nat → Nat → Nat → List Char
  | [], pending, _ => if pending = 0 then [] else [Char.ofNat 65533]
  | b :: rest, 0, _ =>
    if b < 128 then Char.ofNat b :: utf8DecodeGo rest 0 0
    else if b < 224 then utf8DecodeGo rest 1 (b - 192)
    else if b < 240 then utf8DecodeGo rest 2 (b - 224)
    else utf8DecodeGo rest 3 (b - 240)
  | b :: rest, pending + 1, acc =>
    if pending = 0 then Char.ofNat (acc * 64 + (b - 128)) :: utf8DecodeGo rest 0 0
    else utf8DecodeGo rest pending (acc * 64 + (b - 128))

/-- UTF-8 decoding of a byte list (Buffer.from(hex).toString()). -/
def utf8Decode (bs : List Nat) : List Char :=
  utf8DecodeGo bs 0 0

/-- stringToBytes32 from src/scripts/update.ts: rejects JS length above 32
(explicit throw) and UTF-8 byte length above 32 (RangeError raised by
Uint8Array.set); otherwise zero-pads the UTF-8 bytes to 32 bytes. -/
def stringToBytes32 (s : List Char) : Option (List Nat) :=
  if 32 < jsLen s then none
  else
    let strBytes := utf8Encode s
    if 32 < strBytes.length then none
    else some (strBytes ++ List.replicate (32 - strBytes.length) 0)

/-- Lower-case hex digit for a value below 16. -/
def hexChar (n : Nat) : Char :=
  if n < 10 then Char.ofNat (48 + n) else Char.ofNat (87 + n)

/-- Hex rendering of a byte buffer with the 0x prefix, as produced by the
Graph node for a Bytes field (the form consumed by bytes32ToString). -/
def bytesToHex (bs : List Nat) : List Char :=
  '0' :: 'x' :: (bs.map (fun b => [hexChar (b / 16), hexChar (b % 16)])).flatten

/-- Value of one hex digit; invalid characters (unreachable from bytesToHex)
give 0. -/
def hexVal (c : Char) : Nat :=
  if 48 ≤ c.toNat ∧ c.toNat ≤ 57 then c.toNat - 48
  else if 97 ≤ c.toNat ∧ c.toNat ≤ 102 then c.toNat - 87
  else if 65 ≤ c.toNat ∧ c.toNat ≤ 70 then c.toNat - 55
  else 0

/-- Pairs of hex digits to bytes (Buffer.from(hex, 'hex')). -/
def hexPairs : List Char → List Nat
  | a :: b :: r => (hexVal a * 16 + hexVal b) :: hexPairs r
  | _ => []

/-- Removal of the maximal run of trailing NUL characters, mirroring the
replace of a trailing-zero regular expression in bytes32ToString. -/
def stripTrailingNulChars (s : List Char) : List Char :=
  (s.reverse.dropWhile (fun c => c = Char.ofNat 0)).reverse

/-- bytes32ToString from the query script: strips an optional 0x prefix,
decodes hex to bytes, UTF-8 decodes, and removes trailing NUL characters. -/
def bytes32ToString (s : List Char) : List Char :=
  let hex := if startsWith ['0', 'x'] s then s.drop 2 else s
  stripTrailingNulChars (utf8Decode (hexPairs hex))

/-! PriceFeed contract (src/contracts/PriceFeed.sol).  Addresses are naturals
(0 is the zero address); the prices mapping is a total function with the
Solidity default value 0.  A failed require reverts, so the failing branches
return the unchanged state together with the error from the spec taxonomy. -/

/-- Contract storage of PriceFeed: the owner address and the
bytes32-to-uint256 prices mapping. -/
structure PFState where
  owner : Nat
  prices : List Nat → Nat

/-- Events declared by PriceFeed.  PriceUpdated carries asset, price and
block.timestamp; OwnershipTransferred carries only the two addresses. -/
inductive PFEvent
  | PriceUpdated (asset : List Nat) (price : Nat) (timestamp : Nat)
  | OwnershipTransferred (previousOwner : Nat) (newOwner : Nat)
  deriving DecidableEq

/-- Contract-level failures, named after the error taxonomy of the spec:
Unauthorized for the onlyOwner require, InvalidArgument for the zero-address
require. -/
inductive PFError
  | Unauthorized
  | InvalidArgument
  deriving DecidableEq

/-- PriceFeed.constructor: owner is set to the deployer (msg.sender). -/
def deployPriceFeed (deployer : Nat) : PFState :=
  { owner := deployer, prices := fun _ => 0 }

/-- PriceFeed.updatePrice: onlyOwner guard, then stores the price and emits
PriceUpdated with block.timestamp. -/
def updatePrice (sender : Nat) (asset : List Nat) (price : Nat) (blockTime : Nat)
    (st : PFState) : PFState × List PFEvent × Option PFError :=
  if sender = st.owner then
    ({ st with prices := fun k => if k = asset then price else st.prices k },
     [PFEvent.PriceUpdated asset price blockTime], none)
  else (st, [], some PFError.Unauthorized)

/-- PriceFeed.getPrice: pure read with default-value semantics. -/
def getPrice (asset : List Nat) (st : PFState) : Nat :=
  st.prices asset

/-- PriceFeed.transferOwnership: onlyOwner guard, zero-address require, then
emits OwnershipTransferred(owner, newOwner) and updates the owner.  The
blockTime argument is the transaction's block timestamp; the source body
never reads it because the event has no timestamp parameter. -/
def transferOwnership (sender newOwner blockTime : Nat) (st : PFState) :
    PFState × List PFEvent × Option PFError :=
  if sender = st.owner then
    if newOwner = 0 then (st, [], some PFError.InvalidArgument)
    else ({ st with owner := newOwner },
          [PFEvent.OwnershipTransferred st.owner newOwner], none)
  else (st, [], some PFError.Unauthorized)

/-- The externally callable operations of PriceFeed. -/
inductive PFOp
  | update (asset : List Nat) (price : Nat)
  | transfer (newOwner : Nat)
  | read (asset : List Nat)

/-- One transaction against PriceFeed by a given sender at a given block
timestamp. -/
def execOp (op : PFOp) (sender blockTime : Nat) (st : PFState) :
    PFState × List PFEvent × Option PFError :=
  match op with
  | PFOp.update a p => updatePrice sender a p blockTime st
  | PFOp.transfer n => transferOwnership sender n blockTime st
  | PFOp.read _ => (st, [], none)

/-! Subgraph mapping handlers (src/unnamed/part_001).  The generated entity id
is the transaction hash paired with the log index (the source concatenates
their textual renderings). -/

/-- PriceUpdate entity persisted by handlePriceUpdated. -/
structure PriceUpdateRecord where
  id : Nat × Nat
  asset : List Nat
  price : Nat
  timestamp : Nat
  transactionHash : Nat
  deriving DecidableEq

/-- OwnershipTransfer entity persisted by handleOwnershipTransferred. -/
structure OwnershipTransferRecord where
  id : Nat × Nat
  previousOwner : Nat
  newOwner : Nat
  timestamp : Nat
  transactionHash : Nat
  deriving DecidableEq

/-- handlePriceUpdated: copies the event parameters (including the event's own
timestamp parameter) and the transaction hash. -/
def handlePriceUpdated (asset : List Nat) (price : Nat) (timestamp : Nat)
    (txHash logIndex : Nat) : PriceUpdateRecord :=
  { id := (txHash, logIndex), asset := asset, price := price,
    timestamp := timestamp, transactionHash := txHash }

/-- handleOwnershipTransferred: copies the two address parameters, takes the
timestamp from event.block.timestamp, and the transaction hash. -/
def handleOwnershipTransferred (previousOwner newOwner : Nat)
    (txHash logIndex blockTimestamp : Nat) : OwnershipTransferRecord :=
  { id := (txHash, logIndex), previousOwner := previousOwner,
    newOwner := newOwner, timestamp := blockTimestamp,
    transactionHash := txHash }

/-! UpdateTool (src/scripts/update.ts). -/

/-- JS whitespace characters skipped by parseInt. -/
def isJsSpace (c : Char) : Bool :=
  c = ' ' || c = Char.ofNat 9 || c = Char.ofNat 10 || c = Char.ofNat 13 ||
  c = Char.ofNat 11 || c = Char.ofNat 12

/-- Decimal digit value. -/
def decDigitVal (c : Char) : Option Nat :=
  if 48 ≤ c.toNat ∧ c.toNat ≤ 57 then some (c.toNat - 48) else none

/-- Hex digit value (both cases). -/
def hexDigitVal (c : Char) : Option Nat :=
  if 48 ≤ c.toNat ∧ c.toNat ≤ 57 then some (c.toNat - 48)
  else if 97 ≤ c.toNat ∧ c.toNat ≤ 102 then some (c.toNat - 87)
  else if 65 ≤ c.toNat ∧ c.toNat ≤ 70 then some (c.toNat - 55)
  else none

/-- Value of a digit run in a given base (digits already validated). -/
def digitsVal (dv : Char → Option Nat) (base : Nat) (ds : List Char) : Nat :=
  ds.foldl (fun acc c => acc * base + ((dv c).getD 0)) 0

/-- The maximal leading digit run of a string; empty run means NaN. -/
def jsParseIntCore (dv : Char → Option Nat) (base : Nat) (s : List Char) :
    Option Nat :=
  let ds := s.takeWhile (fun c => (dv c).isSome)
  if ds.isEmpty then none else some (digitsVal dv base ds)

/-- JS parseInt(string): skips leading whitespace, optional sign, auto-detects
a 0x or 0X hex prefix, parses the maximal leading digit run and ignores the
rest; none models NaN. -/
def jsParseInt (s : List Char) : Option Int :=
  let s1 := s.dropWhile isJsSpace
  let sign : Int := match s1 with
    | '-' :: _ => -1
    | _ => 1
  let s2 := match s1 with
    | '-' :: r => r
    | '+' :: r => r
    | _ => s1
  match s2 with
  | '0' :: 'x' :: r => (jsParseIntCore hexDigitVal 16 r).map (fun n => sign * n)
  | '0' :: 'X' :: r => (jsParseIntCore hexDigitVal 16 r).map (fun n => sign * n)
  | _ => (jsParseIntCore decDigitVal 10 s2).map (fun n => sign * n)

/-- First argument with the given prefix (args.find with startsWith). -/
def findArg (pre : List Char) (args : List (List Char)) : Option (List Char) :=
  args.find? (fun a => startsWith pre a)

/-- The --price= option prefix. -/
def priceKey : List Char := ['-', '-', 'p', 'r', 'i', 'c', 'e', '=']

/-- The --asset= option prefix. -/
def assetKey : List Char := ['-', '-', 'a', 's', 's', 'e', 't', '=']

/-- Value of a --price= or --asset= argument: arg.split on the equals sign,
element 1, i.e. the text between the first and second equals sign.  Both
recognised prefixes have 8 characters. -/
def argValue (a : List Char) : List Char :=
  (a.drop 8).takeWhile (fun c => c ≠ '=')

/-- Failure classes of UpdateTool, following the spec's error taxonomy.
Invalid --price values and over-long --asset values are both InvalidArgument;
every failure exits 1. -/
inductive UErr
  | invalidArgument
  | configMissing
  | keyError
  | timeout
  | execFailed
  deriving DecidableEq

/-- parseArgs from src/scripts/update.ts: defaults are price 55000 and asset
BTC; a NaN price and an over-32-character asset each exit 1 (modelled as
errors), price validity being checked first. -/
def parseArgs (args : List (List Char)) : Except UErr (Int × List Char) :=
  let priceArg := findArg priceKey args
  let assetArg := findArg assetKey args
  let priceVal : Option Int :=
    match priceArg with
    | none => some 55000
    | some a => jsParseInt (argValue a)
  let asset : List Char :=
    match assetArg with
    | none => ['B', 'T', 'C']
    | some a => argValue a
  match priceVal with
  | none => Except.error UErr.invalidArgument
  | some p =>
    if 32 < jsLen asset then Except.error UErr.invalidArgument
    else Except.ok (p, asset)

/-- Network operations attempted by UpdateTool, in order, with the submitted
call parameters attached to the contract execution. -/
inductive NetCall
  | executeTx (asset : List Nat) (price : Int)
  | getReceipt
  deriving DecidableEq

/-- Observable outcome of one UpdateTool invocation. -/
structure UpdateRun where
  exitCode : Nat
  calls : List NetCall
  err : Option UErr
  deriving DecidableEq

/-- UpdateTool main (src/scripts/update.ts), with the external world as
parameters: envOk is presence of the required environment variables, keyOk is
successful private-key parsing, execTime and receiptTime are the settlement
times of the two awaited SDK calls (in the 30-unit timeout's time scale) and
execOk, receiptOk tell whether each call would settle successfully.  Each
bounded wait is a race against a 30-unit timer: the timer wins at or after 30
and the primary result is discarded. -/
def updateToolRun (args : List (List Char)) (envOk keyOk : Bool)
    (execTime : Nat) (execOk : Bool) (receiptTime : Nat) (receiptOk : Bool) :
    UpdateRun :=
  match parseArgs args with
  | Except.error e => { exitCode := 1, calls := [], err := some e }
  | Except.ok (price, asset) =>
    if envOk = false then
      { exitCode := 1, calls := [], err := some UErr.configMissing }
    else if keyOk = false then
      { exitCode := 1, calls := [], err := some UErr.keyError }
    else
      match stringToBytes32 asset with
      | none => { exitCode := 1, calls := [], err := some UErr.invalidArgument }
      | some assetB =>
        if 30 ≤ execTime then
          { exitCode := 1, calls := [NetCall.executeTx assetB price],
            err := some UErr.timeout }
        else if execOk = false then
          { exitCode := 1, calls := [NetCall.executeTx assetB price],
            err := some UErr.execFailed }
        else if 30 ≤ receiptTime then
          { exitCode := 1,
            calls := [NetCall.executeTx assetB price, NetCall.getReceipt],
            err := some UErr.timeout }
        else if receiptOk = false then
          { exitCode := 1,
            calls := [NetCall.executeTx assetB price, NetCall.getReceipt],
            err := some UErr.execFailed }
        else
          { exitCode := 0,
            calls := [NetCall.executeTx assetB price, NetCall.getReceipt],
            err := none }

/-! DeployTool (src/unnamed/part_000).  Text files are modelled as lists of
lines (lists of characters).  A JS String.replace with a non-global
key-anchored regular expression whose dot cannot cross a newline rewrites, in
the first line containing the key, everything from the key to the end of the
line; all other lines are untouched. -/

/-- One String.replace of a key-anchored line-tail regular expression: the
first line containing the key is rewritten to its prefix before the match
followed by the replacement text; with no matching line the file is
unchanged. -/
def replaceFirstMatch (k repl : List Char) : List (List Char) → List (List Char)
  | [] => []
  | l :: ls =>
    if containsSub k l then (beforeMatch k l ++ repl) :: ls
    else l :: replaceFirstMatch k repl ls

/-- The lines of a file containing a key. -/
def keyLines (k : List Char) (ls : List (List Char)) : List (List Char) :=
  ls.filter (fun l => containsSub k l)

/-- The startBlock key rewritten by the manifest update. -/
def sbKey : List Char := ['s', 't', 'a', 'r', 't', 'B', 'l', 'o', 'c', 'k', ':']

/-- The address key rewritten by the manifest update. -/
def adKey : List Char := ['a', 'd', 'd', 'r', 'e', 's', 's', ':']

/-- The CONTRACT_ID key rewritten by the settings update. -/
def cidKey : List Char :=
  ['C', 'O', 'N', 'T', 'R', 'A', 'C', 'T', '_', 'I', 'D', '=']

/-- Replacement text for the startBlock field: the key, a space and the block
number. -/
def sbRepl (num : List Char) : List Char := sbKey ++ [' '] ++ num

/-- Replacement text for the address field: the key, a space and the quoted
EVM address. -/
def adRepl (addr : List Char) : List Char := adKey ++ [' ', '"'] ++ addr ++ ['"']

/-- The subgraph.yaml rewrite: startBlock replaced first, then address, as in
the source. -/
def subgraphRewrite (num addr : List Char) (yaml : List (List Char)) :
    List (List Char) :=
  replaceFirstMatch adKey (adRepl addr) (replaceFirstMatch sbKey (sbRepl num) yaml)

/-- The .env rewrite: if any line contains CONTRACT_ID= the first such line is
replaced, otherwise a fresh CONTRACT_ID line is appended. -/
def envRewrite (cid : List Char) (env : List (List Char)) : List (List Char) :=
  if env.any (fun l => containsSub cidKey l) then
    replaceFirstMatch cidKey (cidKey ++ cid) env
  else env ++ [cidKey ++ cid]

/-- A replacement text is clean for a key when the key does not occur in it
and no nonempty proper tail of the key is a prefix of it; splicing such a
replacement after arbitrary text can then never create a new occurrence of
the key.  The block numbers and quoted addresses written by DeployTool are
clean for the other key they do not rewrite. -/
@[reducible]
def cleanRepl (k r : List Char) : Prop :=
  containsSub k r = false ∧
  ∀ j, j < k.length → 0 < j → startsWith (List.drop j k) r = false

/-- Failure classes of DeployTool. -/
inductive DErr
  | configMissing
  | timeout
  | execFailed
  | deployRejected
  | noContractId
  deriving DecidableEq

/-- Observable outcome of one DeployTool invocation: exit code and the two
persisted artifacts. -/
structure DeployRun where
  exitCode : Nat
  yamlOut : List (List Char)
  envOut : List (List Char)
  err : Option DErr
  deriving DecidableEq

/-- The literal SUCCESS receipt status. -/
def successStatus : List Char := ['S', 'U', 'C', 'C', 'E', 'S', 'S']

/-- DeployTool main (src/unnamed/part_000) with the external world as
parameters: envOk is presence of the operator credentials, execTime and
receiptTime the settlement times of the two raced SDK calls, execOk and
receiptOk their success, receiptStatus the receipt's status text,
receiptCid the contract id carried by the receipt, blocks the block-number
list answered by the mirror-node query, and evmAddress the derived contract
address.  With an empty blocks list the manifest is left untouched while the
settings file is still rewritten, and the tool still exits 0. -/
def deployToolRun (envOk : Bool) (execTime : Nat) (execOk : Bool)
    (receiptTime : Nat) (receiptOk : Bool) (receiptStatus : List Char)
    (receiptCid : Option (List Char)) (blocks : List (List Char))
    (evmAddress : List Char) (yaml0 env0 : List (List Char)) : DeployRun :=
  if envOk = false then
    { exitCode := 1, yamlOut := yaml0, envOut := env0,
      err := some DErr.configMissing }
  else if 30 ≤ execTime then
    { exitCode := 1, yamlOut := yaml0, envOut := env0, err := some DErr.timeout }
  else if execOk = false then
    { exitCode := 1, yamlOut := yaml0, envOut := env0,
      err := some DErr.execFailed }
  else if 30 ≤ receiptTime then
    { exitCode := 1, yamlOut := yaml0, envOut := env0, err := some DErr.timeout }
  else if receiptOk = false then
    { exitCode := 1, yamlOut := yaml0, envOut := env0,
      err := some DErr.execFailed }
  else if receiptStatus ≠ successStatus then
    { exitCode := 1, yamlOut := yaml0, envOut := env0,
      err := some DErr.deployRejected }
  else
    match receiptCid with
    | none =>
      { exitCode := 1, yamlOut := yaml0, envOut := env0,
        err := some DErr.noContractId }
    | some cid =>
      let yaml1 :=
        match blocks with
        | [] => yaml0
        | b :: _ => subgraphRewrite b evmAddress yaml0
      { exitCode := 0, yamlOut := yaml1, envOut := envRewrite cid env0,
        err := none }

/-! QueryTool (the script appended to src/contracts/PriceFeed.sol).  The two
GraphQL queries and the per-block mirror-node lookups are oracle parameters;
a lookup answering none models any network or decode failure inside
getBlockTimestamp, a primary query answering none models a failed GraphQL
request. -/

/-- A block reference from the indexing-status response. -/
structure QBlockRef where
  number : List Char
  deriving DecidableEq

/-- A chain entry from the indexing-status response. -/
structure QChain where
  chainHeadBlock : QBlockRef
  latestBlock : QBlockRef
  deriving DecidableEq

/-- One subgraph indexing status. -/
structure QStatus where
  subgraph : List Char
  synced : Bool
  health : List Char
  fatalError : Option (List Char)
  chains : List QChain
  deriving DecidableEq

/-- One priceUpdates record from the subgraph (all fields are GraphQL
strings; asset is the 0x-prefixed hex form of the bytes32 identifier). -/
structure QPriceUpdate where
  id : List Char
  asset : List Char
  price : List Char
  timestamp : List Char
  transactionHash : List Char
  deriving DecidableEq

/-- getBlockTimestamp: the fetch, JSON decode and date rendering are the
oracle; any failure inside the try block degrades the result to the Unknown
placeholder. -/
def getBlockTimestamp (lookup : List Char → Option (List Char))
    (blockNumber : List Char) : List Char :=
  match lookup blockNumber with
  | some ts => ts
  | none => ['U', 'n', 'k', 'n', 'o', 'w', 'n']

/-- The block information printed for the first chain of a status: numbers,
resolved timestamps and the blocks-behind difference (none models the NaN
produced when a block number fails to parse). -/
structure BlockSection where
  latestNumber : List Char
  latestTimestamp : List Char
  headNumber : List Char
  headTimestamp : List Char
  blocksBehind : Option Int
  deriving DecidableEq

/-- The report section printed for one indexing status; blockInfo is absent
when the status has no chain entry. -/
structure StatusReport where
  subgraph : List Char
  synced : Bool
  health : List Char
  fatalError : Option (List Char)
  blockInfo : Option BlockSection
  deriving DecidableEq

/-- The status section for one subgraph, resolving both block timestamps via
getBlockTimestamp and computing chainHeadBlock minus latestBlock. -/
def statusSection (lookup : List Char → Option (List Char)) (st : QStatus) :
    StatusReport :=
  { subgraph := st.subgraph, synced := st.synced, health := st.health,
    fatalError := st.fatalError,
    blockInfo :=
      match st.chains with
      | [] => none
      | ch :: _ =>
        some { latestNumber := ch.latestBlock.number,
               latestTimestamp := getBlockTimestamp lookup ch.latestBlock.number,
               headNumber := ch.chainHeadBlock.number,
               headTimestamp :=
                 getBlockTimestamp lookup ch.chainHeadBlock.number,
               blocksBehind :=
                 match jsParseInt ch.chainHeadBlock.number,
                       jsParseInt ch.latestBlock.number with
                 | some h, some l => some (h - l)
                 | _, _ => none } }

/-- Grouping of price updates by decoded asset name: insertion order of first
appearance, appending within a group, as the reduce over a JS object does for
non-index-like keys. -/
def groupUpdates (us : List QPriceUpdate) :
    List (List Char × List QPriceUpdate) :=
  us.foldl
    (fun acc u =>
      let a := bytes32ToString u.asset
      if acc.any (fun g => g.1 = a) then
        acc.map (fun g => if g.1 = a then (g.1, g.2 ++ [u]) else g)
      else acc ++ [(a, [u])])
    []

/-- The full report rendered by QueryTool. -/
structure QueryReport where
  statuses : List StatusReport
  groups : List (List Char × List QPriceUpdate)
  deriving DecidableEq

/-- QueryTool main: the indexing-status query runs first, then the
price-updates query; a failure of either aborts with exit 1, while block
timestamp lookups can only degrade fields inside statusSection. -/
def queryToolRun (statusResult : Option (List QStatus))
    (priceResult : Option (List QPriceUpdate))
    (lookup : List Char → Option (List Char)) : Nat × Option QueryReport :=
  match statusResult with
  | none => (1, none)
  | some sts =>
    let reports := sts.map (statusSection lookup)
    match priceResult with
    | none => (1, none)
    | some us => (0, some { statuses := reports, groups := groupUpdates us })

/-- The lookup-independent part of a status section, used to state that a
failing block lookup affects nothing but the two timestamp fields. -/
def statusSkeleton (r : StatusReport) :
    List Char × Bool × List Char × Option (List Char) ×
      Option (List Char × List Char × Option Int) :=
  (r.subgraph, r.synced, r.health, r.fatalError,
   r.blockInfo.map (fun bi => (bi.latestNumber, bi.headNumber, bi.blocksBehind)))

/-- The lookup-independent part of a whole report. -/
def reportSkeleton (r : QueryReport) :
    List (List Char × Bool × List Char × Option (List Char) ×
      Option (List Char × List Char × Option Int)) ×
    List (List Char × List QPriceUpdate) :=
  (r.statuses.map statusSkeleton, r.groups)

/-! Helper lemmas about characters and the UTF-8 codec. -/

theorem char_ofNat_toNat (c : Char) : Char.ofNat c.toNat = c := by
  have h : c.toNat.isValidChar := c.valid
  unfold Char.ofNat
  rw [dif_pos h]
  unfold Char.ofNatAux
  apply Char.eq_of_val_eq
  apply UInt32.eq_of_toBitVec_eq
  exact BitVec.eq_of_toNat_eq rfl

theorem char_toNat_lt (c : Char) : c.toNat < 1114112 := by
  have he : c.toNat = c.val.toNat := rfl
  rcases c.valid with h | ⟨h1, h2⟩ <;> unfold Nat.isValidChar at * <;> omega

theorem utf8EncodeNat_lt_256 (n : Nat) (hn : n < 1114112) :
    ∀ b ∈ utf8EncodeNat n, b < 256 := by
  unfold utf8EncodeNat
  split_ifs with h1 h2 h3 <;> intro b hb <;> simp at hb <;> omega

theorem utf8Encode_cons (c : Char) (cs : List Char) :
    utf8Encode (c :: cs) = utf8EncodeNat c.toNat ++ utf8Encode cs := by
  simp [utf8Encode]

theorem utf8Encode_lt_256 (s : List Char) : ∀ b ∈ utf8Encode s, b < 256 := by
  induction s with
  | nil => simp [utf8Encode]
  | cons c cs ih =>
    rw [utf8Encode_cons]
    intro b hb
    rcases List.mem_append.1 hb with h | h
    · exact utf8EncodeNat_lt_256 c.toNat (char_toNat_lt c) b h
    · exact ih b h

theorem utf8DecodeGo_encodeNat (n : Nat) (hn : n < 1114112) (rest : List Nat) :
    utf8DecodeGo (utf8EncodeNat n ++ rest) 0 0 =
      Char.ofNat n :: utf8DecodeGo rest 0 0 := by
  unfold utf8EncodeNat
  split_ifs with h1 h2 h3
  · simp [utf8DecodeGo, h1]
  · have hA : ¬ (192 + n / 64 < 128) := by omega
    have hB : 192 + n / 64 < 224 := by omega
    simp only [List.cons_append, List.nil_append, utf8DecodeGo, hA, hB,
      if_true, if_false, ite_true, ite_false, if_pos, if_neg, reduceIte]
    have hv : (192 + n / 64 - 192) * 64 + (128 + n % 64 - 128) = n := by omega
    rw [hv]
    rfl
  · have hA : ¬ (224 + n / 4096 < 128) := by omega
    have hB : ¬ (224 + n / 4096 < 224) := by omega
    have hC : 224 + n / 4096 < 240 := by omega
    simp only [List.cons_append, List.nil_append, utf8DecodeGo, hA, hB, hC,
      if_true, if_false, ite_true, ite_false, reduceIte]
    have hv : ((224 + n / 4096 - 224) * 64 + (128 + n / 64 % 64 - 128)) * 64 +
        (128 + n % 64 - 128) = n := by omega
    rw [hv, if_neg (show ¬ (1 = 0) by decide)]
    rfl
  · have hA : ¬ (240 + n / 262144 < 128) := by omega
    have hB : ¬ (240 + n / 262144 < 224) := by omega
    have hC : ¬ (240 + n / 262144 < 240) := by omega
    simp only [List.cons_append, List.nil_append, utf8DecodeGo, hA, hB, hC,
      if_true, if_false, ite_true, ite_false, reduceIte]
    have hv : (((240 + n / 262144 - 240) * 64 + (128 + n / 4096 % 64 - 128)) * 64 +
        (128 + n / 64 % 64 - 128)) * 64 + (128 + n % 64 - 128) = n := by omega
    rw [hv, if_neg (show ¬ (2 = 0) by decide),
      if_neg (show ¬ (1 = 0) by decide)]
    rfl

theorem utf8Decode_encode_append (s : List Char) (tail : List Nat) :
    utf8DecodeGo (utf8Encode s ++ tail) 0 0 = s ++ utf8DecodeGo tail 0 0 := by
  induction s with
  | nil => simp [utf8Encode]
  | cons c cs ih =>
    rw [utf8Encode_cons, List.append_assoc,
      utf8DecodeGo_encodeNat c.toNat (char_toNat_lt c), ih, char_ofNat_toNat]
    rfl

theorem utf8DecodeGo_replicate_zero (k : Nat) :
    utf8DecodeGo (List.replicate k 0) 0 0 = List.replicate k (Char.ofNat 0) := by
  induction k with
  | zero => rfl
  | succ m ih => simp [List.replicate_succ, utf8DecodeGo, ih]

theorem stripTrailingNulChars_append_replicate (s : List Char) (k : Nat)
    (h : s.getLast? ≠ some (Char.ofNat 0)) :
    stripTrailingNulChars (s ++ List.replicate k (Char.ofNat 0)) = s := by
  unfold stripTrailingNulChars
  rw [List.reverse_append, List.reverse_replicate]
  have hdrop : List.dropWhile (fun c => c = Char.ofNat 0)
      (List.replicate k (Char.ofNat 0) ++ s.reverse) =
      List.dropWhile (fun c => c = Char.ofNat 0) s.reverse := by
    induction k with
    | zero => rfl
    | succ m ih => simp [List.replicate_succ, List.dropWhile, ih]
  rw [hdrop]
  cases hs : s.reverse with
  | nil =>
    have : s = [] := by simpa [List.reverse_eq_nil_iff] using hs
    simp [this]
  | cons a t =>
    have hha : s.reverse.head? = s.getLast? := List.head?_reverse s
    rw [hs] at hha
    have ha : ¬ (a = Char.ofNat 0) := by
      intro hcontra
      exact h (by rw [← hha, hcontra]; rfl)
    rw [List.dropWhile_cons, if_neg (by simpa using ha), ← hs,
      List.reverse_reverse]

theorem hexVal_hexChar (m : Nat) (h : m < 16) : hexVal (hexChar m) = m := by
  interval_cases m <;> rfl

theorem hexPairs_hex_body (bs : List Nat) (h : ∀ b ∈ bs, b < 256) :
    hexPairs ((bs.map (fun b => [hexChar (b / 16), hexChar (b % 16)])).flatten)
      = bs := by
  induction bs with
  | nil => rfl
  | cons b t ih =>
    have hb : b < 256 := h b (List.mem_cons_self b t)
    have ht : ∀ x ∈ t, x < 256 := fun x hx => h x (List.mem_cons_of_mem _ hx)
    simp only [List.map_cons, List.flatten_cons, List.cons_append,
      List.nil_append]
    rw [hexPairs, hexVal_hexChar _ (by omega), hexVal_hexChar _ (by omega),
      ih ht]
    congr 1
    omega

theorem jsLen_le_utf8Encode_length (s : List Char) :
    jsLen s ≤ (utf8Encode s).length := by
  induction s with
  | nil => simp [jsLen, utf8Encode]
  | cons c cs ih =>
    rw [utf8Encode_cons, List.length_append, jsLen]
    have hpos : 1 ≤ (utf8EncodeNat c.toNat).length := by
      unfold utf8EncodeNat
      split_ifs <;> simp
    by_cases hc : c.toNat < 65536
    · rw [if_pos hc]; omega
    · have h4 : (utf8EncodeNat c.toNat).length = 4 := by
        unfold utf8EncodeNat
        rw [if_neg (by omega), if_neg (by omega), if_neg (by omega)]
        rfl
      rw [if_neg hc]; omega

/-- C1: the claim as stated fails (see C1_counterexample): a name ending in a
NUL character survives the length guard but is truncated by the
trailing-zero strip, and a name whose UTF-8 form exceeds 32 bytes makes the
encoder throw.  Amended claim: for every asset name whose UTF-8 encoding is
at most 32 bytes and whose last character is not NUL, encoding with
stringToBytes32 and decoding the hex form with bytes32ToString returns the
original name unchanged. -/
theorem C1_round_trip (s : List Char)
    (h1 : (utf8Encode s).length ≤ 32)
    (h2 : s.getLast? ≠ some (Char.ofNat 0)) :
    ∃ bs, stringToBytes32 s = some bs ∧ bytes32ToString (bytesToHex bs) = s := by
  have hjs : jsLen s ≤ 32 := le_trans (jsLen_le_utf8Encode_length s) h1
  refine ⟨utf8Encode s ++ List.replicate (32 - (utf8Encode s).length) 0, ?_, ?_⟩
  · unfold stringToBytes32
    rw [if_neg (by omega)]
    simp only
    rw [if_neg (by omega)]
  · have hbytes : ∀ b ∈ utf8Encode s ++
        List.replicate (32 - (utf8Encode s).length) 0, b < 256 := by
      intro b hb
      rcases List.mem_append.1 hb with hb | hb
      · exact utf8Encode_lt_256 s b hb
      · have := List.eq_of_mem_replicate hb
        omega
    unfold bytes32ToString bytesToHex
    rw [if_pos (by simp [startsWith])]
    simp only [List.drop_succ_cons, List.drop_zero]
    rw [hexPairs_hex_body _ hbytes]
    unfold utf8Decode
    rw [utf8Decode_encode_append, utf8DecodeGo_replicate_zero]
    exact stripTrailingNulChars_append_replicate s _ h2

/-- C1 counterexample: the two-character name with 'A' followed by NUL has JS
length 2 but decodes back to just 'A', refuting the claim for every name of
length at most 32. -/
theorem C1_counterexample :
    jsLen ['A', Char.ofNat 0] ≤ 32 ∧
    (stringToBytes32 ['A', Char.ofNat 0]).map
      (fun bs => bytes32ToString (bytesToHex bs)) = some ['A'] ∧
    some ['A'] ≠ some [('A' : Char), Char.ofNat 0] := by
  refine ⟨by decide, by decide, by decide⟩

/-- Witness for C1_round_trip at the name BTC. -/
theorem C1_round_trip_witness :
    (utf8Encode ['B', 'T', 'C']).length ≤ 32 ∧
    ∃ bs, stringToBytes32 ['B', 'T', 'C'] = some bs ∧
      bytes32ToString (bytesToHex bs) = ['B', 'T', 'C'] :=
  ⟨by decide, C1_round_trip ['B', 'T', 'C'] (by decide) (by decide)⟩

/-- C2: the claim as stated fails (see C2_counterexample): the source event
OwnershipTransferred(previousOwner, newOwner) has no timestamp parameter, so
the emitted notification cannot carry the current time.  Amended claim:
every authorized transferOwnership call with a non-zero new owner emits
OwnershipTransferred carrying exactly the previous owner and the new owner,
sets owner to the new owner, and the OwnershipRecord persisted by the
indexer contains exactly previousOwner, newOwner, the block timestamp and
the transaction hash (keyed by transaction hash and log index). -/
theorem C2_transfer_event_and_record (sender newOwner t : Nat) (st : PFState)
    (h1 : sender = st.owner) (h2 : newOwner ≠ 0) :
    transferOwnership sender newOwner t st =
      ({ st with owner := newOwner },
       [PFEvent.OwnershipTransferred st.owner newOwner], none) ∧
    ∀ txh li bts, handleOwnershipTransferred st.owner newOwner txh li bts =
      { id := (txh, li), previousOwner := st.owner, newOwner := newOwner,
        timestamp := bts, transactionHash := txh } :=
  ⟨by simp [transferOwnership, h1, h2], fun _ _ _ => rfl⟩

/-- C2 counterexample: two authorized calls that differ only in the current
block time emit identical OwnershipTransferred notifications, and the
notification consists of the two addresses only — it does not carry the
current time. -/
theorem C2_counterexample :
    (transferOwnership 1 2 100 (deployPriceFeed 1)).2.1 =
      (transferOwnership 1 2 200 (deployPriceFeed 1)).2.1 ∧
    (transferOwnership 1 2 100 (deployPriceFeed 1)).2.1 =
      [PFEvent.OwnershipTransferred 1 2] :=
  ⟨rfl, rfl⟩

/-- Witness for C2_transfer_event_and_record. -/
theorem C2_witness :
    transferOwnership 1 2 100 (deployPriceFeed 1) =
      ({ deployPriceFeed 1 with owner := 2 },
       [PFEvent.OwnershipTransferred 1 2], none) ∧
    handleOwnershipTransferred 1 2 10 0 100 =
      { id := (10, 0), previousOwner := 1, newOwner := 2, timestamp := 100,
        transactionHash := 10 } :=
  ⟨(C2_transfer_event_and_record 1 2 100 (deployPriceFeed 1) rfl
      (by decide)).1,
   (C2_transfer_event_and_record 1 2 100 (deployPriceFeed 1) rfl
      (by decide)).2 10 0 100⟩

/-- C3: a non-owner updatePrice call fails with Unauthorized (the onlyOwner
require) and the stored price of every asset is unchanged. -/
theorem C3_nonowner_update_rejected (sender : Nat) (asset : List Nat)
    (price t : Nat) (st : PFState) (h : sender ≠ st.owner) :
    updatePrice sender asset price t st = (st, [], some PFError.Unauthorized) ∧
    ∀ a, getPrice a (updatePrice sender asset price t st).1 = getPrice a st := by
  constructor
  · simp [updatePrice, h]
  · intro a
    simp [updatePrice, h]

/-- Witness for C3_nonowner_update_rejected. -/
theorem C3_witness :
    updatePrice 2 [66] 5 0 (deployPriceFeed 1) =
      (deployPriceFeed 1, [], some PFError.Unauthorized) ∧
    getPrice [7] (updatePrice 2 [66] 5 0 (deployPriceFeed 1)).1 =
      getPrice [7] (deployPriceFeed 1) :=
  ⟨(C3_nonowner_update_rejected 2 [66] 5 0 (deployPriceFeed 1) (by decide)).1,
   (C3_nonowner_update_rejected 2 [66] 5 0 (deployPriceFeed 1) (by decide)).2
     [7]⟩

/-- C4: an authorized transferOwnership to the zero address fails with
InvalidArgument leaving the state unchanged; the constructor installs the
non-zero deployer; and every PriceFeed operation preserves a non-zero
owner. -/
theorem C4_owner_nonzero :
    (∀ sender t st, sender = st.owner →
      transferOwnership sender 0 t st =
        (st, [], some PFError.InvalidArgument)) ∧
    (∀ d, d ≠ 0 → (deployPriceFeed d).owner ≠ 0) ∧
    (∀ op sender t st, st.owner ≠ 0 →
      ((execOp op sender t st).1).owner ≠ 0) := by
  refine ⟨?_, ?_, ?_⟩
  · intro sender t st h
    simp [transferOwnership, h]
  · intro d hd
    simpa [deployPriceFeed] using hd
  · intro op sender t st h
    cases op with
    | update a p =>
      by_cases hs : sender = st.owner <;> simp [execOp, updatePrice, hs, h]
    | transfer n =>
      by_cases hs : sender = st.owner
      · by_cases hn : n = 0 <;>
          simp [execOp, transferOwnership, hs, hn, h]
      · simp [execOp, transferOwnership, hs, h]
    | read a => simpa [execOp] using h

/-- Witness for C4_owner_nonzero. -/
theorem C4_witness :
    transferOwnership 7 0 3 (deployPriceFeed 7) =
      (deployPriceFeed 7, [], some PFError.InvalidArgument) ∧
    (deployPriceFeed 5).owner ≠ 0 ∧
    ((execOp (PFOp.transfer 9) 7 3 (deployPriceFeed 7)).1).owner ≠ 0 :=
  ⟨C4_owner_nonzero.1 7 3 (deployPriceFeed 7) rfl,
   C4_owner_nonzero.2.1 5 (by decide),
   C4_owner_nonzero.2.2 (PFOp.transfer 9) 7 3 (deployPriceFeed 7) (by decide)⟩

/-- C6: an asset argument whose value is longer than 32 characters makes
UpdateTool exit 1 with InvalidArgument during argument parsing, with no
network call attempted, whatever the environment and network would do. -/
theorem C6_long_asset_rejected (args : List (List Char)) (a : List Char)
    (envOk keyOk : Bool) (et : Nat) (eo : Bool) (rt : Nat) (ro : Bool)
    (hfind : findArg assetKey args = some a)
    (hlong : 32 < jsLen (argValue a)) :
    updateToolRun args envOk keyOk et eo rt ro =
      { exitCode := 1, calls := [], err := some UErr.invalidArgument } := by
  have hparse : parseArgs args = Except.error UErr.invalidArgument := by
    unfold parseArgs
    rcases hp : findArg priceKey args with _ | pa
    · simp [hp, hfind, hlong]
    · rcases hj : jsParseInt (argValue pa) with _ | p
      · simp [hp, hfind, hj]
      · simp [hp, hfind, hj, hlong]
  unfold updateToolRun
  rw [hparse]

/-- Witness for C6_long_asset_rejected at a 33-character asset name. -/
theorem C6_witness :
    updateToolRun [assetKey ++ List.replicate 33 'A'] true true 0 true 0 true =
      { exitCode := 1, calls := [], err := some UErr.invalidArgument } :=
  C6_long_asset_rejected [assetKey ++ List.replicate 33 'A']
    (assetKey ++ List.replicate 33 'A') true true 0 true 0 true (by decide)
    (by decide)

/-- C7: a --price value that parseInt cannot parse (NaN) makes UpdateTool
exit 1 with InvalidArgument; when the value parses, the parsed integer is
exactly the price parseArgs returns and the price attached to the submitted
contract call. -/
theorem C7_price_parsing :
    (∀ args pa (envOk keyOk : Bool) (et : Nat) (eo : Bool) (rt : Nat)
      (ro : Bool),
      findArg priceKey args = some pa →
      jsParseInt (argValue pa) = none →
      updateToolRun args envOk keyOk et eo rt ro =
        { exitCode := 1, calls := [], err := some UErr.invalidArgument }) ∧
    (∀ args pa n p asset,
      findArg priceKey args = some pa →
      jsParseInt (argValue pa) = some n →
      parseArgs args = Except.ok (p, asset) → p = n) ∧
    (∀ args p asset assetB (et : Nat) (eo : Bool) (rt : Nat) (ro : Bool),
      parseArgs args = Except.ok (p, asset) →
      stringToBytes32 asset = some assetB →
      (updateToolRun args true true et eo rt ro).calls.head? =
        some (NetCall.executeTx assetB p)) := by
  refine ⟨?_, ?_, ?_⟩
  · intro args pa envOk keyOk et eo rt ro hfind hj
    have hparse : parseArgs args = Except.error UErr.invalidArgument := by
      unfold parseArgs
      simp [hfind, hj]
    unfold updateToolRun
    rw [hparse]
  · intro args pa n p asset hfind hj hok
    unfold parseArgs at hok
    rw [hfind] at hok
    simp only [hj] at hok
    split at hok
    · cases hok
    · rw [Except.ok.injEq, Prod.mk.injEq] at hok
      exact hok.1.symm
  · intro args p asset assetB et eo rt ro hok hb
    unfold updateToolRun
    rw [hok]
    simp only [hb, reduceIte]
    split_ifs <;> simp_all

/-- Witness for C7_price_parsing. -/
theorem C7_witness :
    updateToolRun [priceKey ++ ['z']] true true 0 true 0 true =
      { exitCode := 1, calls := [], err := some UErr.invalidArgument } ∧
    (∀ p asset, parseArgs [priceKey ++ ['7']] = Except.ok (p, asset) → p = 7) ∧
    (updateToolRun [priceKey ++ ['7']] true true 0 true 0 true).calls.head? =
      some (NetCall.executeTx ([66, 84, 67] ++ List.replicate 29 0) 7) :=
  ⟨(C7_price_parsing.1 [priceKey ++ ['z']] (priceKey ++ ['z']) true true 0
      true 0 true (by decide) (by decide)),
   (fun p asset h => C7_price_parsing.2.1 [priceKey ++ ['7']]
      (priceKey ++ ['7']) 7 p asset (by decide) (by decide) h),
   (C7_price_parsing.2.2 [priceKey ++ ['7']] 7 ['B', 'T', 'C']
      ([66, 84, 67] ++ List.replicate 29 0) 0 true 0 true rfl (by decide))⟩

/-- C8: whenever the transaction-execution wait or the receipt wait settles
after the 30-unit timer, UpdateTool reports Timeout and exits 1; the outcome
is the same for every eventual result of the raced call (the loser is
discarded), as the conclusions do not depend on the success parameters. -/
theorem C8_timeout_race (args : List (List Char)) (p : Int)
    (asset : List Char) (assetB : List Nat) (et : Nat) (eo : Bool) (rt : Nat)
    (ro : Bool)
    (hok : parseArgs args = Except.ok (p, asset))
    (hb : stringToBytes32 asset = some assetB) :
    (30 < et → updateToolRun args true true et eo rt ro =
      { exitCode := 1, calls := [NetCall.executeTx assetB p],
        err := some UErr.timeout }) ∧
    (et < 30 → eo = true → 30 < rt →
      updateToolRun args true true et eo rt ro =
        { exitCode := 1,
          calls := [NetCall.executeTx assetB p, NetCall.getReceipt],
          err := some UErr.timeout }) := by
  constructor
  · intro het
    unfold updateToolRun
    rw [hok]
    simp only [hb, reduceIte]
    rw [if_pos (show (30:Nat) ≤ et by omega)]
    rfl
  · intro het heo hrt
    unfold updateToolRun
    rw [hok]
    simp only [hb, heo, reduceIte]
    rw [if_neg (show ¬ ((30:Nat) ≤ et) by omega),
      if_pos (show (30:Nat) ≤ rt by omega)]
    rfl

/-- Witness for C8_timeout_race. -/
theorem C8_witness :
    updateToolRun [] true true 31 false 0 true =
      { exitCode := 1,
        calls := [NetCall.executeTx ([66, 84, 67] ++ List.replicate 29 0)
          55000],
        err := some UErr.timeout } ∧
    updateToolRun [] true true 1 true 31 false =
      { exitCode := 1,
        calls := [NetCall.executeTx ([66, 84, 67] ++ List.replicate 29 0)
          55000, NetCall.getReceipt],
        err := some UErr.timeout } :=
  ⟨(C8_timeout_race [] 55000 ['B', 'T', 'C']
      ([66, 84, 67] ++ List.replicate 29 0) 31 false 0 true rfl
      (by decide)).1 (by decide),
   (C8_timeout_race [] 55000 ['B', 'T', 'C']
      ([66, 84, 67] ++ List.replicate 29 0) 1 true 31 false rfl
      (by decide)).2 (by decide) rfl (by decide)⟩

/-- C9: a failed primary query (either the indexing-status request or the
price-updates request) aborts QueryTool with exit 1; with both primaries
succeeding the tool exits 0 and everything in the report except the two
resolved timestamp fields is independent of the block-lookup oracle, a
failed lookup rendering exactly the Unknown placeholder and a successful
one the resolved text. -/
theorem C9_degraded_lookups :
    (∀ p l, queryToolRun none p l = (1, none)) ∧
    (∀ s l, queryToolRun (some s) none l = (1, none)) ∧
    (∀ s u l, (queryToolRun (some s) (some u) l).1 = 0) ∧
    (∀ s u l1 l2,
      ((queryToolRun (some s) (some u) l1).2).map reportSkeleton =
        ((queryToolRun (some s) (some u) l2).2).map reportSkeleton) ∧
    (∀ l b, l b = none →
      getBlockTimestamp l b = ['U', 'n', 'k', 'n', 'o', 'w', 'n']) ∧
    (∀ l b t, l b = some t → getBlockTimestamp l b = t) := by
  refine ⟨fun p l => rfl, fun s l => rfl, fun s u l => rfl, ?_, ?_, ?_⟩
  · intro s u l1 l2
    simp only [queryToolRun, Option.map_some', reportSkeleton,
      Option.some.injEq, Prod.mk.injEq, and_true, List.map_map]
    apply List.map_congr_left
    intro st _
    cases hch : st.chains <;>
      simp [statusSection, statusSkeleton, Function.comp, hch]
  · intro l b h
    simp [getBlockTimestamp, h]
  · intro l b t h
    simp [getBlockTimestamp, h]

/-- Witness for C9_degraded_lookups. -/
theorem C9_witness :
    queryToolRun none (some []) (fun _ => none) = (1, none) ∧
    queryToolRun (some []) none (fun _ => none) = (1, none) ∧
    (queryToolRun (some []) (some []) (fun _ => none)).1 = 0 ∧
    getBlockTimestamp (fun _ => none) ['1'] =
      ['U', 'n', 'k', 'n', 'o', 'w', 'n'] ∧
    getBlockTimestamp (fun _ => some ['t']) ['1'] = ['t'] :=
  ⟨C9_degraded_lookups.1 (some []) (fun _ => none),
   C9_degraded_lookups.2.1 [] (fun _ => none),
   C9_degraded_lookups.2.2.1 [] [] (fun _ => none),
   C9_degraded_lookups.2.2.2.2.1 (fun _ => none) ['1'] rfl,
   C9_degraded_lookups.2.2.2.2.2 (fun _ => some ['t']) ['1'] ['t'] rfl⟩

/-! Helper lemmas about the substring functions and the line rewrites. -/

theorem startsWith_append_self (k r : List Char) :
    startsWith k (k ++ r) = true := by
  induction k with
  | nil => rfl
  | cons p ps ih => simp [startsWith, ih]

theorem startsWith_extend :
    ∀ (k a t : List Char), startsWith k a = true →
      startsWith k (a ++ t) = true
  | [], _, _, _ => rfl
  | p :: ps, [], _, h => by cases h
  | p :: ps, c :: cs, t, h => by
    simp only [startsWith, Bool.and_eq_true] at h
    simp only [List.cons_append, startsWith, Bool.and_eq_true]
    exact ⟨h.1, startsWith_extend ps cs t h.2⟩

theorem containsSub_of_startsWith (k l : List Char)
    (h : startsWith k l = true) : containsSub k l = true := by
  cases l with
  | nil => exact h
  | cons c cs => simp [containsSub, h]

theorem containsSub_append_right (k a b : List Char)
    (h : containsSub k b = true) : containsSub k (a ++ b) = true := by
  induction a with
  | nil => exact h
  | cons c cs ih =>
    simp only [List.cons_append, containsSub, Bool.or_eq_true]
    exact Or.inr ih

theorem containsSub_nil_pat (l : List Char) : containsSub [] l = true := by
  cases l <;> rfl

theorem containsSub_extend (k a t : List Char)
    (h : containsSub k a = true) : containsSub k (a ++ t) = true := by
  induction a with
  | nil =>
    cases k with
    | nil => exact containsSub_nil_pat t
    | cons p ps => cases h
  | cons c cs ih =>
    simp only [containsSub, Bool.or_eq_true] at h
    simp only [List.cons_append, containsSub, Bool.or_eq_true]
    rcases h with h | h
    · exact Or.inl (startsWith_extend k (c :: cs) t h)
    · exact Or.inr (ih h)

theorem beforeMatch_decomp (k l : List Char) :
    ∃ t, beforeMatch k l ++ t = l := by
  induction l with
  | nil => exact ⟨[], rfl⟩
  | cons c cs ih =>
    by_cases h : startsWith k (c :: cs) = true
    · exact ⟨c :: cs, by simp [beforeMatch, h]⟩
    · rcases ih with ⟨t, ht⟩
      exact ⟨t, by simp [beforeMatch, h, ht]⟩

theorem containsSub_beforeMatch_imp (k k' l : List Char)
    (h : containsSub k (beforeMatch k' l) = true) : containsSub k l = true := by
  rcases beforeMatch_decomp k' l with ⟨t, ht⟩
  rw [← ht]
  exact containsSub_extend _ _ _ h

theorem startsWith_split :
    ∀ (k a b : List Char), startsWith k (a ++ b) = true →
      startsWith (List.take a.length k) a = true ∧
      startsWith (List.drop a.length k) b = true
  | k, [], b, h => by simpa [startsWith] using h
  | [], c :: cs, b, _ => by simp [startsWith]
  | p :: ps, c :: cs, b, h => by
    simp only [List.cons_append, startsWith, Bool.and_eq_true] at h
    have ih := startsWith_split ps cs b h.2
    simp only [List.length_cons, List.take_succ_cons, List.drop_succ_cons,
      startsWith, Bool.and_eq_true]
    exact ⟨⟨h.1, ih.1⟩, ih.2⟩

theorem containsSub_span (k : List Char) :
    ∀ (a b : List Char), containsSub k (a ++ b) = true →
      containsSub k a = true ∨ containsSub k b = true ∨
        ∃ j, 0 < j ∧ j < k.length ∧ startsWith (List.drop j k) b = true := by
  intro a
  induction a with
  | nil => intro b h; exact Or.inr (Or.inl h)
  | cons c a' ih =>
    intro b h
    simp only [List.cons_append, containsSub, Bool.or_eq_true] at h
    rcases h with h | h
    · by_cases hk : k.length ≤ (c :: a').length
      · have hsp := startsWith_split k (c :: a') b
          (by rw [List.cons_append]; exact h)
        rw [List.take_of_length_le hk] at hsp
        exact Or.inl (containsSub_of_startsWith _ _ hsp.1)
      · have hsp := startsWith_split k (c :: a') b
          (by rw [List.cons_append]; exact h)
        refine Or.inr (Or.inr ⟨(c :: a').length, by simp, by omega, hsp.2⟩)
    · rcases ih b h with h' | h' | ⟨j, hj0, hjl, hsw⟩
      · exact Or.inl (by simp [containsSub, Bool.or_eq_true]; right; exact h')
      · exact Or.inr (Or.inl h')
      · exact Or.inr (Or.inr ⟨j, hj0, hjl, hsw⟩)

theorem beforeMatch_no_new (k1 k2 r l : List Char)
    (hl : containsSub k2 l = false) (hc : cleanRepl k2 r) :
    containsSub k2 (beforeMatch k1 l ++ r) = false := by
  cases hcc : containsSub k2 (beforeMatch k1 l ++ r) with
  | false => rfl
  | true =>
    exfalso
    rcases containsSub_span k2 (beforeMatch k1 l) r hcc with h | h | ⟨j, hj0, hjl, hsw⟩
    · rw [containsSub_beforeMatch_imp k2 k1 l h] at hl
      cases hl
    · rw [hc.1] at h
      cases h
    · rw [hc.2 j hjl hj0] at hsw
      cases hsw

theorem bool_false_of_not_and_left {a b : Bool}
    (h : ¬ (a = true ∧ b = true)) (ha : a = true) : b = false := by
  cases b with
  | false => rfl
  | true => exact absurd ⟨ha, rfl⟩ h

theorem bool_false_of_not_and_right {a b : Bool}
    (h : ¬ (a = true ∧ b = true)) (hb : b = true) : a = false := by
  cases a with
  | false => rfl
  | true => exact absurd ⟨rfl, hb⟩ h

theorem keyLines_replace_self (k r : List Char)
    (hkr : startsWith k r = true) :
    ∀ ls : List (List Char), (keyLines k ls).length = 1 →
      ∃ p, keyLines k (replaceFirstMatch k r ls) = [p ++ r] := by
  intro ls
  induction ls with
  | nil => intro h; simp [keyLines] at h
  | cons l t ih =>
    intro h
    by_cases hc : containsSub k l = true
    · have hnew : containsSub k (beforeMatch k l ++ r) = true :=
        containsSub_append_right _ _ _ (containsSub_of_startsWith _ _ hkr)
      have ht : keyLines k t = [] := by
        have hlen : (keyLines k (l :: t)).length = (keyLines k t).length + 1 := by
          simp [keyLines, List.filter_cons, hc]
        rw [h] at hlen
        exact List.length_eq_zero.1 (by omega)
      refine ⟨beforeMatch k l, ?_⟩
      simp only [replaceFirstMatch, if_pos hc]
      simp [keyLines, List.filter_cons, hnew]
      intro a ha
      have hfa := List.filter_eq_nil_iff.1 ht a ha
      simpa using hfa
    · have hh : keyLines k (l :: t) = keyLines k t := by
        simp [keyLines, List.filter_cons, hc]
      rw [hh] at h
      rcases ih h with ⟨p, hp⟩
      refine ⟨p, ?_⟩
      simp only [replaceFirstMatch, if_neg hc]
      simpa [keyLines, List.filter_cons, hc] using hp

theorem keyLines_replace_other (k1 r k2 : List Char)
    (hc : cleanRepl k2 r) :
    ∀ ls : List (List Char),
      (∀ l ∈ ls, containsSub k1 l = true → containsSub k2 l = false) →
      keyLines k2 (replaceFirstMatch k1 r ls) = keyLines k2 ls := by
  intro ls
  induction ls with
  | nil => intro _; rfl
  | cons l t ih =>
    intro hsep
    by_cases h1 : containsSub k1 l = true
    · have h2 : containsSub k2 l = false :=
        hsep l (List.mem_cons_self l t) h1
      have hnew : containsSub k2 (beforeMatch k1 l ++ r) = false :=
        beforeMatch_no_new k1 k2 r l h2 hc
      simp [replaceFirstMatch, h1, keyLines, List.filter_cons, hnew, h2]
    · simp only [replaceFirstMatch, if_neg h1]
      have ihr := ih (fun x hx => hsep x (List.mem_cons_of_mem _ hx))
      cases h2 : containsSub k2 l <;>
        simp [keyLines, List.filter_cons, h2] <;>
        simpa [keyLines] using ihr

theorem mem_replaceFirstMatch (k r : List Char) :
    ∀ (ls : List (List Char)) l', l' ∈ replaceFirstMatch k r ls →
      l' ∈ ls ∨ ∃ l, l ∈ ls ∧ containsSub k l = true ∧
        l' = beforeMatch k l ++ r := by
  intro ls
  induction ls with
  | nil => intro l' h; simp [replaceFirstMatch] at h
  | cons l t ih =>
    intro l' h
    by_cases h1 : containsSub k l = true
    · rw [replaceFirstMatch.eq_def] at h
      simp only [if_pos h1] at h
      rcases List.mem_cons.1 h with h | h
      · exact Or.inr ⟨l, List.mem_cons_self l t, h1, h⟩
      · exact Or.inl (List.mem_cons_of_mem _ h)
    · rw [replaceFirstMatch.eq_def] at h
      simp only [if_neg h1] at h
      rcases List.mem_cons.1 h with h | h
      · exact Or.inl (h ▸ List.mem_cons_self l t)
      · rcases ih l' h with h' | ⟨m, hm, hcm, he⟩
        · exact Or.inl (List.mem_cons_of_mem _ h')
        · exact Or.inr ⟨m, List.mem_cons_of_mem _ hm, hcm, he⟩

theorem rewriteRound (k1 r1 k2 r2 : List Char)
    (h1 : startsWith k1 r1 = true) (h2 : startsWith k2 r2 = true)
    (hc12 : cleanRepl k2 r1) (hc21 : cleanRepl k1 r2)
    (ls : List (List Char))
    (hk1 : (keyLines k1 ls).length = 1) (hk2 : (keyLines k2 ls).length = 1)
    (hsep : ∀ l ∈ ls, ¬ (containsSub k1 l = true ∧ containsSub k2 l = true)) :
    (∃ p, keyLines k1 (replaceFirstMatch k2 r2 (replaceFirstMatch k1 r1 ls)) =
      [p ++ r1]) ∧
    (∃ q, keyLines k2 (replaceFirstMatch k2 r2 (replaceFirstMatch k1 r1 ls)) =
      [q ++ r2]) ∧
    (∀ l ∈ replaceFirstMatch k2 r2 (replaceFirstMatch k1 r1 ls),
      ¬ (containsSub k1 l = true ∧ containsSub k2 l = true)) := by
  have hA : ∃ p, keyLines k1 (replaceFirstMatch k1 r1 ls) = [p ++ r1] :=
    keyLines_replace_self k1 r1 h1 ls hk1
  have hsep1 : ∀ l ∈ replaceFirstMatch k1 r1 ls,
      ¬ (containsSub k1 l = true ∧ containsSub k2 l = true) := by
    intro l hl
    rcases mem_replaceFirstMatch k1 r1 ls l hl with h | ⟨m, hm, hcm, he⟩
    · exact hsep l h
    · have hk2m : containsSub k2 m = false :=
        bool_false_of_not_and_left (hsep m hm) hcm
      have hk2l : containsSub k2 l = false :=
        he ▸ beforeMatch_no_new k1 k2 r1 m hk2m hc12
      intro hand
      rw [hk2l] at hand
      cases hand.2
  have hB : keyLines k2 (replaceFirstMatch k1 r1 ls) = keyLines k2 ls :=
    keyLines_replace_other k1 r1 k2 hc12 ls
      (fun l hl hc1 => bool_false_of_not_and_left (hsep l hl) hc1)
  have hC : ∃ q, keyLines k2
      (replaceFirstMatch k2 r2 (replaceFirstMatch k1 r1 ls)) = [q ++ r2] :=
    keyLines_replace_self k2 r2 h2 _ (by rw [hB]; exact hk2)
  have hD : keyLines k1 (replaceFirstMatch k2 r2 (replaceFirstMatch k1 r1 ls)) =
      keyLines k1 (replaceFirstMatch k1 r1 ls) :=
    keyLines_replace_other k2 r2 k1 hc21 _
      (fun l hl hc2 => bool_false_of_not_and_right (hsep1 l hl) hc2)
  have hsep2 : ∀ l ∈ replaceFirstMatch k2 r2 (replaceFirstMatch k1 r1 ls),
      ¬ (containsSub k1 l = true ∧ containsSub k2 l = true) := by
    intro l hl
    rcases mem_replaceFirstMatch k2 r2 _ l hl with h | ⟨m, hm, hcm, he⟩
    · exact hsep1 l h
    · have hk1m : containsSub k1 m = false :=
        bool_false_of_not_and_right (hsep1 m hm) hcm
      have hk1l : containsSub k1 l = false :=
        he ▸ beforeMatch_no_new k2 k1 r2 m hk1m hc21
      intro hand
      rw [hk1l] at hand
      cases hand.1
  exact ⟨hD ▸ hA, hC, hsep2⟩

theorem startsWith_sbRepl (num : List Char) :
    startsWith sbKey (sbRepl num) = true := by
  unfold sbRepl
  rw [List.append_assoc]
  exact startsWith_append_self _ _

theorem startsWith_adRepl (addr : List Char) :
    startsWith adKey (adRepl addr) = true := by
  unfold adRepl
  rw [List.append_assoc, List.append_assoc]
  exact startsWith_append_self _ _

theorem keyLines_envRewrite (cid : List Char) (env : List (List Char))
    (h : (keyLines cidKey env).length ≤ 1) :
    ∃ w, keyLines cidKey (envRewrite cid env) = [w ++ (cidKey ++ cid)] := by
  unfold envRewrite
  by_cases hany : env.any (fun l => containsSub cidKey l) = true
  · rw [if_pos hany]
    have hlen : (keyLines cidKey env).length = 1 := by
      rcases List.any_eq_true.1 hany with ⟨x, hx, hcx⟩
      have hmem : x ∈ keyLines cidKey env := List.mem_filter.2 ⟨hx, hcx⟩
      have hpos : 0 < (keyLines cidKey env).length :=
        List.length_pos.2 (List.ne_nil_of_mem hmem)
      omega
    exact keyLines_replace_self cidKey (cidKey ++ cid)
      (startsWith_append_self _ _) env hlen
  · rw [if_neg hany]
    have hnil : keyLines cidKey env = [] := by
      rcases hkl : keyLines cidKey env with _ | ⟨x, t⟩
      · rfl
      · exfalso
        have hx : x ∈ keyLines cidKey env := by
          rw [hkl]; exact List.mem_cons_self x t
        have hmem := List.mem_filter.1 hx
        exact hany (List.any_eq_true.2 ⟨x, hmem.1, hmem.2⟩)
    refine ⟨[], ?_⟩
    have happ : keyLines cidKey (env ++ [cidKey ++ cid]) =
        keyLines cidKey env ++ keyLines cidKey [cidKey ++ cid] :=
      List.filter_append _ _
    rw [happ, hnil]
    simp [keyLines, List.filter_cons,
      containsSub_of_startsWith _ _ (startsWith_append_self cidKey cid)]

/-- C5: rerunning the deploy rewrites over artifacts in which each tracked
field occurs on exactly one line (and the two manifest keys never share a
line, the written values being clean for the other key) leaves exactly one
startBlock line, one address line and one CONTRACT_ID line, each carrying
the values of the latest run. -/
theorem C5_redeploy_idempotent (yaml0 env0 : List (List Char))
    (n1 a1 c1 n2 a2 c2 : List Char)
    (hsb : (keyLines sbKey yaml0).length = 1)
    (had : (keyLines adKey yaml0).length = 1)
    (hsep : ∀ l ∈ yaml0,
      ¬ (containsSub sbKey l = true ∧ containsSub adKey l = true))
    (hc1 : cleanRepl adKey (sbRepl n1)) (hc2 : cleanRepl sbKey (adRepl a1))
    (hc3 : cleanRepl adKey (sbRepl n2)) (hc4 : cleanRepl sbKey (adRepl a2))
    (henv : (keyLines cidKey env0).length ≤ 1) :
    (∃ p, keyLines sbKey (subgraphRewrite n2 a2 (subgraphRewrite n1 a1 yaml0))
      = [p ++ sbRepl n2]) ∧
    (∃ q, keyLines adKey (subgraphRewrite n2 a2 (subgraphRewrite n1 a1 yaml0))
      = [q ++ adRepl a2]) ∧
    (∃ w, keyLines cidKey (envRewrite c2 (envRewrite c1 env0))
      = [w ++ (cidKey ++ c2)]) := by
  have round1 := rewriteRound sbKey (sbRepl n1) adKey (adRepl a1)
    (startsWith_sbRepl n1) (startsWith_adRepl a1) hc1 hc2 yaml0 hsb had hsep
  rcases round1 with ⟨⟨p1, hp1⟩, ⟨q1, hq1⟩, hsep1⟩
  have hk1' : (keyLines sbKey (subgraphRewrite n1 a1 yaml0)).length = 1 := by
    unfold subgraphRewrite
    rw [hp1]
    rfl
  have hk2' : (keyLines adKey (subgraphRewrite n1 a1 yaml0)).length = 1 := by
    unfold subgraphRewrite
    rw [hq1]
    rfl
  have round2 := rewriteRound sbKey (sbRepl n2) adKey (adRepl a2)
    (startsWith_sbRepl n2) (startsWith_adRepl a2) hc3 hc4
    (subgraphRewrite n1 a1 yaml0) hk1' hk2' hsep1
  refine ⟨round2.1, round2.2.1, ?_⟩
  rcases keyLines_envRewrite c1 env0 henv with ⟨w1, hw1⟩
  have henv1 : (keyLines cidKey (envRewrite c1 env0)).length ≤ 1 := by
    rw [hw1]
    exact le_refl 1
  exact keyLines_envRewrite c2 (envRewrite c1 env0) henv1

/-- Witness for C5_redeploy_idempotent on a three-line manifest and a
one-line settings file. -/
theorem C5_witness :
    (keyLines sbKey [['a'], sbKey ++ [' ', '0'],
        adKey ++ [' ', '"', 'x', '"']]).length = 1 ∧
    ((∃ p, keyLines sbKey
        (subgraphRewrite ['7'] ['b']
          (subgraphRewrite ['5'] ['a']
            [['a'], sbKey ++ [' ', '0'], adKey ++ [' ', '"', 'x', '"']]))
        = [p ++ sbRepl ['7']]) ∧
    (∃ q, keyLines adKey
        (subgraphRewrite ['7'] ['b']
          (subgraphRewrite ['5'] ['a']
            [['a'], sbKey ++ [' ', '0'], adKey ++ [' ', '"', 'x', '"']]))
        = [q ++ adRepl ['b']]) ∧
    (∃ w, keyLines cidKey
        (envRewrite ['2'] (envRewrite ['1'] [['E', '=', '9']]))
        = [w ++ (cidKey ++ ['2'])])) :=
  ⟨by decide,
   C5_redeploy_idempotent
     [['a'], sbKey ++ [' ', '0'], adKey ++ [' ', '"', 'x', '"']]
     [['E', '=', '9']] ['5'] ['a'] ['1'] ['7'] ['b'] ['2']
     (by decide) (by decide) (by decide) (by decide) (by decide) (by decide)
     (by decide) (by decide)⟩

/-- C10: with a successful receipt but an empty block list from the mirror
node, DeployTool leaves the manifest untouched, still rewrites CONTRACT_ID
in the settings file to the new contract id, and exits 0 — the two
artifacts are updated inconsistently on a success path. -/
theorem C10_empty_blocks (et rt : Nat) (cid addr : List Char)
    (yaml0 env0 : List (List Char)) (h1 : et < 30) (h2 : rt < 30)
    (henv : (keyLines cidKey env0).length ≤ 1) :
    deployToolRun true et true rt true successStatus (some cid) [] addr
      yaml0 env0 =
      { exitCode := 0, yamlOut := yaml0, envOut := envRewrite cid env0,
        err := none } ∧
    ∃ w, keyLines cidKey (envRewrite cid env0) = [w ++ (cidKey ++ cid)] := by
  constructor
  · unfold deployToolRun
    rw [if_neg (show ¬ (true = false) by simp),
      if_neg (show ¬ ((30:Nat) ≤ et) by omega),
      if_neg (show ¬ (true = false) by simp),
      if_neg (show ¬ ((30:Nat) ≤ rt) by omega),
      if_neg (show ¬ (true = false) by simp),
      if_neg (show ¬ (successStatus ≠ successStatus) by simp)]
  · exact keyLines_envRewrite cid env0 henv

/-- Witness for C10_empty_blocks. -/
theorem C10_witness :
    deployToolRun true 1 true 1 true successStatus (some ['9']) [] ['z']
      [sbKey ++ [' ', '3']] [['E', '=', '1']] =
      { exitCode := 0, yamlOut := [sbKey ++ [' ', '3']],
        envOut := envRewrite ['9'] [['E', '=', '1']], err := none } ∧
    ∃ w, keyLines cidKey (envRewrite ['9'] [['E', '=', '1']])
      = [w ++ (cidKey ++ ['9'])] :=
  C10_empty_blocks 1 1 ['9'] ['z'] [sbKey ++ [' ', '3']] [['E', '=', '1']]
    (by decide) (by decide) (by decide)

end HederaPoc
